import Mathlib

/-!
Shallow embedding of `CQue::List<T, Allocator>` from `src/include/Containers.hpp`
(line numbers below refer to that file).

The C++ container keeps three data members: `_Capacity` (allocated slot count),
`_Count` (live element count) and `_Elems` (pointer to the backing buffer).
A container state is modelled as:

* `capacity` — the value of `_Capacity`;
* `count`    — the value of `_Count`;
* `elems`    — the list of live, fully constructed values held by the buffer
               slots `[0, elems.length)`, in slot order;
* `null`     — whether `_Elems` is the null pointer (`std::allocator::allocate`
               never returns null: it either succeeds or throws, and a
               zero-size request still returns a non-null pointer).

In every state produced by the public interface `count = elems.length`; the two
are nevertheless kept separate because `Resize` (line 454) updates `_Count`
independently of the set of live slots, and the divergence is observable.

`std::size_t` values supplied by the caller are arbitrary naturals below
`2 ^ 64`.  The one place where the source performs arithmetic on caller-supplied
values that can wrap — `index + count` and `_Count -= count` in `RemoveRange`
(lines 437 and 444) — is modelled modulo `2 ^ 64`.  Internal counts and
capacities are unbounded naturals: a state whose count or capacity is anywhere
near `2 ^ 63` is unreachable, because the allocation would fail first and
allocation failure propagates (spec §7).

Throwing operations return `Except String` with the string the source passes to
`std::out_of_range`; an `error` result models the exception propagating to the
caller with the object left exactly as it was, which is faithful because every
`throw` in `Insert`, `RemoveAt` and `RemoveRange` happens before any mutation.
-/

namespace CQue

variable {T : Type}

/-- State of a `CQue::List<T, Allocator>` object. -/
structure CList (T : Type) where
  capacity : Nat
  count : Nat
  elems : List T
  null : Bool
  deriving DecidableEq

deriving instance DecidableEq for Except

/-- Default constructor (line 154): `_Capacity(0), _Count(0), _Elems(nullptr)`. -/
def empty : CList T := ⟨0, 0, [], true⟩

/-- Constructor `List(std::size_t initial_size)` (lines 166-171): allocates
`initial_size` slots and default-constructs that many elements; for `int`,
`std::construct_at(&_Elems[i])` value-initializes the slot to `0`. -/
def mkSized (n : Nat) : CList Int := ⟨n, n, List.replicate n 0, false⟩

/-- `_Reallocate(new_capacity)` (lines 699-717).  When `_Capacity == 0` only a
fresh buffer is installed and the capacity recorded; otherwise, when the
capacity actually changes, the first `_Count` slots are move-constructed into
the fresh buffer, the originals destroyed and the old buffer released.  Only
live slots carry values, so the moved values are the first
`min _Count elems.length` ones; when `new_capacity < _Count` the C++ writes
past the new buffer (undefined behaviour), while the bookkeeping recorded here
is what the code computes. -/
def Reallocate (new_capacity : Nat) (l : CList T) : CList T :=
  if l.capacity = 0 then { l with capacity := new_capacity, null := false }
  else if l.capacity ≠ new_capacity then
    { capacity := new_capacity, count := l.count,
      elems := l.elems.take l.count, null := false }
  else l

/-- `Add(const T& what)` / `Add(T&& what)` (lines 195-221): when the buffer is
full the capacity grows — `_Capacity == 0` allocates exactly one slot,
otherwise `_Reallocate(_Capacity * 2)` — and the new element is constructed in
slot `_Count`, which is then incremented. -/
def Add (what : T) (l : CList T) : CList T :=
  let g := if l.count = l.capacity then
      (if l.capacity = 0 then { l with capacity := 1, null := false }
       else Reallocate (l.capacity * 2) l)
    else l
  { g with count := g.count + 1, elems := g.elems ++ [what] }

/-- Folds `Add` over a list of values: `l.Add(v0); ...; l.Add(v(N-1))`. -/
def AddAll (vs : List T) (l : CList T) : CList T :=
  vs.foldl (fun acc v => Add v acc) l

/-- `Clear()` (lines 229-234): destroys all live elements and zeroes `_Count`;
capacity and buffer are kept. -/
def Clear (l : CList T) : CList T := { l with count := 0, elems := [] }

/-- `Insert(std::size_t index, const T& what)` (lines 323-355).
`index == _Count` delegates to `Add`.  For `index < _Count`, a full buffer is
replaced by a doubled one into which `[0, index)` is moved unshifted and
`[index, _Count)` is moved shifted right by one; otherwise the tail
`[index, _Count)` is shifted right in place by `std::move_backward`; either
way `what` is constructed at `index` and `_Count` incremented.  In both
branches the live values end up as `take index ++ what :: drop index`.
`index > _Count` throws `std::out_of_range("index")` before touching any
state. -/
def Insert (index : Nat) (what : T) (l : CList T) : Except String (CList T) :=
  if index = l.count then .ok (Add what l)
  else if index < l.count then
    if l.count = l.capacity then
      .ok { capacity := l.capacity * 2, count := l.count + 1,
            elems := l.elems.take index ++ what :: l.elems.drop index,
            null := false }
    else
      .ok { l with
            count := l.count + 1,
            elems := l.elems.take index ++ what :: l.elems.drop index }
  else .error "index"

/-- `RemoveAt(std::size_t index)` (lines 421-432): when `index < _Count`, the
slot `index` is destroyed, default-reconstructed, the tail `(index, _Count)`
is move-shifted left by one and `_Count` is decremented — the live values
become `take index ++ drop (index + 1)`.  Otherwise the call throws
`std::out_of_range("where")` with no prior mutation. -/
def RemoveAt (index : Nat) (l : CList T) : Except String (CList T) :=
  if index < l.count then
    .ok { l with
          count := l.count - 1,
          elems := l.elems.take index ++ l.elems.drop (index + 1) }
  else .error "where"

/-- `RemoveRange(std::size_t index, std::size_t count)` (lines 434-448).  The
bounds check `index + count <= _Count` is `std::size_t` arithmetic, so the sum
wraps modulo `2 ^ 64`; `_Count -= count` wraps the same way.  When the check
passes, the `count` slots starting at `index` are destroyed and
default-reconstructed and the tail is move-shifted left by `count`.  The
throwing branch performs no mutation. -/
def RemoveRange (index cnt : Nat) (l : CList T) : Except String (CList T) :=
  if (index + cnt) % 2 ^ 64 ≤ l.count then
    .ok { l with
          count := (l.count + (2 ^ 64 - cnt % 2 ^ 64)) % 2 ^ 64,
          elems := l.elems.take index ++ l.elems.drop (index + cnt) }
  else .error "where"

/-- `Resize(std::size_t n)` (lines 450-457).  When `n < _Count` the call runs
`std::destroy_n(&_Elems[n], _Count -= n)`: `_Count` becomes `_Count - n` and
that many slots starting at slot `n` — exactly the slots `[n, old _Count)` —
are destroyed, leaving the first `n` slots live.  Either way it then calls
`_Reallocate(n)`. -/
def Resize (n : Nat) (l : CList T) : CList T :=
  if n < l.count then
    Reallocate n { l with count := l.count - n, elems := l.elems.take n }
  else Reallocate n l

/-- `_Elems[i] = std::exchange(_Elems[j], _Elems[i])`: a swap of slots `i` and
`j`.  Out-of-range indices (which the source never produces on a well-formed
state) leave the list unchanged. -/
def swapPos (xs : List T) (i j : Nat) : List T :=
  match xs[i]?, xs[j]? with
  | some a, some b => (xs.set i b).set j a
  | _, _ => xs

/-- Loop of `Reverse()` (lines 459-464): for `i` in `[0, _Count / 2)` swap
slots `i` and `_Count - i - 1`. -/
def revLoopFrom (cnt i : Nat) (xs : List T) : List T :=
  if h : i < cnt / 2 then revLoopFrom cnt (i + 1) (swapPos xs i (cnt - i - 1))
  else xs
termination_by cnt / 2 - i
decreasing_by omega

/-- `Reverse()` (lines 459-464). -/
def Reverse (l : CList T) : CList T :=
  { l with elems := revLoopFrom l.count 0 l.elems }

/-- Scan loop of `IndexOf` (lines 313-321): position of the first element equal
to `what`, counting from `i`. -/
def indexOfAux [DecidableEq T] (what : T) : List T → Nat → Option Nat
  | [], _ => none
  | x :: xs, i => if x = what then some i else indexOfAux what xs (i + 1)

/-- `IndexOf(const T& what)` (lines 313-321): index of the first element equal
to `what`, or the sentinel `(std::size_t)(-1) = 2 ^ 64 - 1`. -/
def IndexOf [DecidableEq T] (what : T) (l : CList T) : Nat :=
  match indexOfAux what l.elems 0 with
  | some i => i
  | none => 2 ^ 64 - 1

/-- `Remove(const T& what)` (lines 401-419): looks the value up with `IndexOf`;
on a hit calls `RemoveAt` on the found position and reports success, otherwise
reports failure.  The whole body sits in `try { ... } catch (...) { return
false; }`, so an exception is converted to `false` with the object unchanged
(`RemoveAt` throws before any mutation); the function itself is `noexcept`. -/
def Remove [DecidableEq T] (what : T) (l : CList T) : Bool × CList T :=
  if IndexOf what l ≠ 2 ^ 64 - 1 then
    match RemoveAt (IndexOf what l) l with
    | .ok l2 => (true, l2)
    | .error _ => (false, l)
  else (false, l)

/-- `AddRange(const _It& what)` (lines 474-487): when the spare capacity
`_Capacity - _Count` cannot hold the new elements, grows to
`_Count * 2 + add_count`; the source elements are then constructed after the
existing ones and `_Count` increases by `add_count`. -/
def AddRange (src : List T) (l : CList T) : CList T :=
  let g := if src.length > l.capacity - l.count
    then Reallocate (l.count * 2 + src.length) l else l
  { g with count := g.count + src.length, elems := g.elems ++ src }

/-- `InsertRange(std::size_t index, const _It& what)` (lines 522-563),
instantiated at element type `bool` — an instantiation at which the
reallocating branch compiles, because line 542 reads
`std::construct_at(&new_Elems[i + add_count], &_Elems[i])`: it constructs the
shifted element from the ADDRESS `&_Elems[i]` instead of the element.  For
`bool` the pointer-to-bool conversion of the (always non-null) address of a
live slot yields `true`, so every shifted element becomes `true`; for most
element types the line does not even compile.  The in-place branch
default-constructs the slots `[_Count, _Count + add_count)`, shifts
`[index, _Count)` right by `add_count` via `std::move_backward` and copies the
source into `[index, index + add_count)`, so the live values become
`take index ++ src ++ drop index`. -/
def InsertRangeCopyBool (index : Nat) (src : List Bool) (l : CList Bool) :
    Except String (CList Bool) :=
  if index = l.count then .ok (AddRange src l)
  else if index < l.count then
    if src.length > l.capacity - l.count then
      .ok { capacity := l.count * 2 + src.length,
            count := l.count + src.length,
            elems := l.elems.take index ++ src
                       ++ (l.elems.drop index).map (fun _ => true),
            null := false }
    else
      .ok { l with
            count := l.count + src.length,
            elems := l.elems.take index ++ src ++ l.elems.drop index }
  else .error "index"

/-- `operator[]` (lines 660-670): returns `_Elems[index]` with no bounds check
of any kind.  In the guarded embedding an access to a slot `>= _Count` — a slot
that is uninitialized or outside the buffer entirely — yields no defined value,
i.e. `none`. -/
def opIndex (l : CList T) (index : Nat) : Option T := l.elems[index]?

/-- Copy constructor `List(const List& other)` (lines 156-161):
`_Capacity(other._Count), _Count(other._Count)`, a fresh buffer of
`other._Count` slots when `other._Elems` is non-null (and the null handle when
it is null; `allocate` never returns null, also for a zero-size request), then
the `other._Count` live elements are copy-constructed in order. -/
def copyCtor (other : CList T) : CList T :=
  ⟨other.count, other.count, other.elems.take other.count, other.null⟩

/-- The natural three-way ordering on `int`.
Modelled from the spec: `DefaultCompare<T>` lives in `base_include.hpp`, which
is not among the sources; per spec §4.2 and §6, `Sort` takes a user-supplied
three-way comparator whose default is the natural ordering. -/
def DefaultCompare (a b : Int) : Ordering :=
  if a < b then .lt else if a = b then .eq else .gt

/-- The reversed comparator — an admissible user-supplied `Comparison<int>`
(largest element first). -/
def revCmp (a b : Int) : Ordering := DefaultCompare b a

/-- Slot read `_Elems[i]` inside `_HeapSort`, with an irrelevant default for
out-of-range positions (never reached from a well-formed state). -/
def slot (xs : List Int) (i : Nat) : Int := (xs[i]?).getD 0

/-- Inner loop of `_HeapSort` (lines 735-749): sift the node `root` down the
heap prefix `[0, e)`.  The larger child is selected with the user comparator
(line 739: `compare(_Elems[child], _Elems[child + 1]) ==
std::partial_ordering::less`), but the promotion test on line 742 is
`_Elems[root] < _Elems[child]` — the natural order, not the comparator.
`fuel` only bounds the iteration count; `e` iterations always suffice because
`root` strictly increases while staying below `e`. -/
def siftDown (comp : Int → Int → Ordering) (e : Nat) :
    Nat → Nat → List Int → List Int
  | 0, _, xs => xs
  | fuel + 1, root, xs =>
    if root * 2 + 1 < e then
      let c0 := root * 2 + 1
      let child := if c0 + 1 < e ∧ comp (slot xs c0) (slot xs (c0 + 1)) = .lt
        then c0 + 1 else c0
      if slot xs root < slot xs child then
        siftDown comp e fuel child (swapPos xs root child)
      else xs
    else xs

/-- Outer loop of `_HeapSort` (lines 722-750): the heapify phase decrements
`start`; the sorted phase swaps the root with slot `end - 1` and decrements
`end`; each iteration then sifts down from `start`.  `fuel` only bounds the
iteration count; each iteration decreases `start + e` by exactly one, so
`start + e` iterations always suffice. -/
def heapLoop (comp : Int → Int → Ordering) :
    Nat → Nat → Nat → List Int → List Int
  | 0, _, _, xs => xs
  | fuel + 1, start, e, xs =>
    if 1 < e then
      if 0 < start then
        heapLoop comp fuel (start - 1) e (siftDown comp e e (start - 1) xs)
      else
        heapLoop comp fuel 0 (e - 1)
          (siftDown comp (e - 1) (e - 1) 0 (swapPos xs 0 (e - 1)))
    else xs

/-- `Sort(Comparison<T> compare)` (lines 466-470), which just runs
`_HeapSort(compare)` (lines 719-751) on the live slots with
`start = _Count / 2` and `end = _Count`. -/
def HeapSort (comp : Int → Int → Ordering) (l : CList Int) : CList Int :=
  { l with elems := heapLoop comp (l.count / 2 + l.count) (l.count / 2) l.count l.elems }

/-! ### List helper lemmas -/

theorem take_len_append (a xs : List T) : (a ++ xs).take a.length = a := by
  induction a with
  | nil => rfl
  | cons h t ih => simp [ih]

theorem drop_len_append (a xs : List T) (k : Nat) :
    (a ++ xs).drop (a.length + k) = xs.drop k := by
  induction a with
  | nil => simp
  | cons h t ih => simp [Nat.succ_add, ih]

theorem getElem?_len_append (a xs : List T) (k : Nat) :
    (a ++ xs)[a.length + k]? = xs[k]? := by
  induction a with
  | nil => simp
  | cons h t ih => simp [Nat.succ_add, ih]

theorem set_len_append (a xs : List T) (k : Nat) (v : T) :
    (a ++ xs).set (a.length + k) v = a ++ xs.set k v := by
  induction a with
  | nil => simp
  | cons h t ih => simp [Nat.succ_add, ih]

/-! ### Claim C1 — the `count <= capacity` invariant is broken by `Resize` -/

/-- C1: the invariant `count <= capacity` does NOT survive every operation
sequence: starting from the valid three-element list built by
`List(3)` (count 3, capacity 3), a single call `Resize(1)` leaves
`_Count = 2` while `_Capacity = 1`, because line 454 runs
`std::destroy_n(&_Elems[n], _Count -= n)`, shrinking `_Count` by `n` instead
of to `n`, after which `_Reallocate(1)` installs a one-slot buffer. -/
theorem resize_violates_capacity_invariant :
    (Resize 1 (mkSized 3)).count = 2 ∧ (Resize 1 (mkSized 3)).capacity = 1 ∧
    ¬ (Resize 1 (mkSized 3)).count ≤ (Resize 1 (mkSized 3)).capacity := by
  decide

/-! ### Claim C2 — `Resize(n)` with `n < count` -/

/-- C2: on the list `[7, 8, 9]` (built by three appends, so count 3,
capacity 4), `Resize(2)` is claimed to destroy `[2, 3)`, keep `[7, 8]` and set
`count = 2`, `capacity = 2`.  The code instead sets `_Count -= 2`, i.e.
`_Count = 1`, and the subsequent `_Reallocate(2)` moves only that one element,
so the result holds a single live element `[7]` with `count = 1` — not
`count = 2` with `[7, 8]`. -/
theorem resize_miscounts :
    (Resize 2 (AddAll [7, 8, 9] (empty : CList Int))).count = 1 ∧
    (Resize 2 (AddAll [7, 8, 9] (empty : CList Int))).elems = [7] ∧
    (Resize 2 (AddAll [7, 8, 9] (empty : CList Int))).capacity = 2 ∧
    (1 : Nat) ≠ 2 := by
  decide

/-! ### Claim C3 — `Sort` half-ignores the user comparator -/

/-- C3: sorting `[1, 2]` with the reversed comparator `revCmp` (under which
`2` precedes `1`: `revCmp 2 1 = lt`, `revCmp 1 2 = gt`) must yield `[2, 1]`,
but `_HeapSort` leaves `[1, 2]`: line 742 compares `_Elems[root] <
_Elems[child]` with the natural order instead of the supplied comparator, so
only the child-selection step (line 739) sees the comparator and the array is
(at best) sorted by the natural order, not by `c`. -/
theorem sort_ignores_comparator :
    (HeapSort revCmp (AddAll [1, 2] (empty : CList Int))).elems = [1, 2] ∧
    revCmp 2 1 = Ordering.lt ∧ revCmp 1 2 = Ordering.gt := by
  decide

/-! ### Claim C4 — the reallocating branch of `InsertRange` -/

/-- C4: `InsertRange(1, [true])` on the full two-element list
`[false, false]` (count = capacity = 2) takes the reallocating branch and is
claimed to yield `[false, true, false]`.  Line 542 constructs each shifted
element from the ADDRESS `&_Elems[i]` instead of the element — for `bool` the
non-null pointer converts to `true` (for most element types the line does not
compile at all) — so the code yields `[false, true, true]`: the original
element `false` at position 1 is not preserved. -/
theorem insertRange_copy_corrupts_tail :
    InsertRangeCopyBool 1 [true] (Add false (Add false (empty : CList Bool))) =
      Except.ok (⟨5, 3, [false, true, true], false⟩ : CList Bool) ∧
    ([false, true, true] : List Bool) ≠ [false, true, false] := by
  decide

/-! ### Claim C5 — out-of-bounds detection -/

/-- C5, counterexample: `RemoveRange(2^64 - 1, 2)` on the one-element list
`[7]` has `index + removeCount > Count()`, yet raises no error: the check on
line 437 computes `index + count` in `std::size_t`, the sum wraps to `1 <= 1`,
and the call proceeds (into undefined behaviour) instead of throwing. -/
theorem removeRange_overflow_no_error :
    RemoveRange (2 ^ 64 - 1) 2 (Add 7 (empty : CList Int)) =
      Except.ok (⟨1, 2 ^ 64 - 1, [7], false⟩ : CList Int) := by
  decide

/-- C5, amended: `Insert` with `index > Count()` and `RemoveAt` with
`index >= Count()` always raise the out-of-bounds error, and `RemoveRange`
with `index + removeCount > Count()` raises it provided the `std::size_t` sum
`index + removeCount` does not wrap modulo `2 ^ 64`.  An `error` result leaves
the list exactly as it was: each `throw` in the source happens before any
mutation, which the `Except`-valued embedding encodes by construction. -/
theorem oob_calls_error_and_preserve (l : CList Int) (x : Int) (index cnt : Nat) :
    (l.count < index → Insert index x l = Except.error "index") ∧
    (l.count ≤ index → RemoveAt index l = Except.error "where") ∧
    (l.count < index + cnt → index + cnt < 2 ^ 64 →
      RemoveRange index cnt l = Except.error "where") := by
  refine ⟨?_, ?_, ?_⟩
  · intro h
    have h1 : ¬ index = l.count := by omega
    have h2 : ¬ index < l.count := by omega
    simp [Insert, h1, h2]
  · intro h
    have h1 : ¬ index < l.count := by omega
    simp [RemoveAt, h1]
  · intro h hlt
    have h1 : ¬ (index + cnt) % 2 ^ 64 ≤ l.count := by
      rw [Nat.mod_eq_of_lt hlt]; omega
    simp only [RemoveRange]
    rw [if_neg h1]

/-- C5, witness for the amended statement on the one-element list `[7]`. -/
theorem oob_calls_error_and_preserve_w :
    Insert 5 9 (Add 7 (empty : CList Int)) = Except.error "index" ∧
    RemoveAt 5 (Add 7 (empty : CList Int)) = Except.error "where" ∧
    RemoveRange 5 3 (Add 7 (empty : CList Int)) = Except.error "where" := by
  have h := oob_calls_error_and_preserve (Add 7 (empty : CList Int)) 9 5 3
  exact ⟨h.1 (by decide), h.2.1 (by decide), h.2.2 (by decide) (by decide)⟩

/-! ### Claim C6 — `Remove` -/

theorem indexOfAux_not_mem [DecidableEq T] (x : T) (xs : List T) (hx : x ∉ xs) :
    ∀ k, indexOfAux x xs k = none := by
  induction xs with
  | nil => intro k; rfl
  | cons h t ih =>
    intro k
    have hne : ¬ h = x := by
      intro he; exact hx (he ▸ List.mem_cons_self h t)
    have ht : x ∉ t := fun hm => hx (List.mem_cons_of_mem h hm)
    simp [indexOfAux, hne, ih ht]

theorem indexOfAux_first [DecidableEq T] (x : T) (a b : List T) (hx : x ∉ a) :
    ∀ k, indexOfAux x (a ++ x :: b) k = some (k + a.length) := by
  induction a with
  | nil => intro k; simp [indexOfAux]
  | cons h t ih =>
    intro k
    have hne : ¬ h = x := by
      intro he; exact hx (he ▸ List.mem_cons_self h t)
    have ht : x ∉ t := fun hm => hx (List.mem_cons_of_mem h hm)
    have step : indexOfAux x ((h :: t) ++ x :: b) k
        = indexOfAux x (t ++ x :: b) (k + 1) := by
      simp [indexOfAux, hne]
    rw [step, ih ht (k + 1)]
    simp only [Option.some.injEq, List.length_cons]
    omega

/-- C6: `Remove(x)` deletes the first occurrence of `x` and returns `true`,
or returns `false` leaving the list untouched when `x` is absent.  Writing the
element sequence as `a ++ x :: b` with `x ∉ a` (so the first index equal to
`x` is `a.length`), `Remove x` yields `(true, ...)` with the elements `a ++ b`
(tail shifted left by one), the count decremented and the capacity unchanged.
The hypothesis `count < 2^64 - 1` rules out the physically unreachable count
that collides with the `(std::size_t)(-1)` sentinel.  Exception-freedom is
inherent: the embedding of `Remove` is a total function into `Bool × CList`,
mirroring the `noexcept` + `try`/`catch (...)` body. -/
theorem remove_first_or_unchanged (l : CList Int) (x : Int)
    (hwf : l.count = l.elems.length) (hc : l.count < 2 ^ 64 - 1) :
    (∀ a b, x ∉ a → l.elems = a ++ x :: b →
      Remove x l = (true, { l with count := l.count - 1, elems := a ++ b })) ∧
    (x ∉ l.elems → Remove x l = (false, l)) := by
  constructor
  · intro a b hxa he
    have hidx : IndexOf x l = a.length := by
      unfold IndexOf
      rw [he, indexOfAux_first x a b hxa 0]
      simp
    have hcount : l.count = a.length + b.length + 1 := by
      rw [hwf, he]
      simp only [List.length_append, List.length_cons]
      omega
    have hlt : a.length < l.count := by omega
    have hsent : IndexOf x l ≠ 2 ^ 64 - 1 := by
      rw [hidx]; omega
    have hrem : RemoveAt (IndexOf x l) l =
        Except.ok { l with count := l.count - 1, elems := a ++ b } := by
      rw [hidx]
      unfold RemoveAt
      rw [if_pos hlt]
      have h1 : l.elems.take a.length = a := by
        rw [he]
        exact take_len_append a (x :: b)
      have h2 : l.elems.drop (a.length + 1) = b := by
        rw [he, drop_len_append a (x :: b) 1]
        rfl
      rw [h1, h2]
    unfold Remove
    rw [if_pos hsent, hrem]
  · intro hx
    have hidx : IndexOf x l = 2 ^ 64 - 1 := by
      unfold IndexOf
      rw [indexOfAux_not_mem x l.elems hx 0]
    unfold Remove
    rw [if_neg (by simp [hidx])]

/-- C6, witness: on `[1, 3, 5, 3]` (capacity 4), `Remove 3` deletes the first
`3` giving `[1, 5, 3]` with count 3 and capacity still 4, and `Remove 9`
reports failure leaving the list unchanged. -/
theorem remove_first_or_unchanged_w :
    Remove 3 (AddAll [1, 3, 5, 3] (empty : CList Int)) =
      (true, (⟨4, 3, [1, 5, 3], false⟩ : CList Int)) ∧
    Remove 9 (AddAll [1, 3, 5, 3] (empty : CList Int)) =
      (false, AddAll [1, 3, 5, 3] (empty : CList Int)) := by
  have h3 := remove_first_or_unchanged (AddAll [1, 3, 5, 3] (empty : CList Int)) 3
    (by decide) (by decide)
  have h9 := remove_first_or_unchanged (AddAll [1, 3, 5, 3] (empty : CList Int)) 9
    (by decide) (by decide)
  constructor
  · rw [h3.1 [1] [5, 3] (by decide) (by decide)]
    decide
  · exact h9.2 (by decide)

/-! ### Claim C7 — append correctness and capacity growth -/

/-- Invariant maintained by `Add` along any run that starts from the empty
list: the count matches the live elements, and the capacity is `0` exactly
while the list is empty and otherwise the least power of two that is at least
`count` (a power `2 ^ k` with `count ≤ 2 ^ k < 2 * count`). -/
def GrowInv (l : CList T) : Prop :=
  l.count = l.elems.length ∧
  ((l.count = 0 ∧ l.capacity = 0) ∨
   (1 ≤ l.count ∧ ∃ k, l.capacity = 2 ^ k ∧ l.count ≤ 2 ^ k ∧ 2 ^ k < 2 * l.count))

theorem growInv_add (l : CList T) (v : T) (h : GrowInv l) :
    GrowInv (Add v l) ∧ (Add v l).elems = l.elems ++ [v] := by
  obtain ⟨hwf, hcap⟩ := h
  rcases hcap with ⟨h0, hc0⟩ | ⟨h1, k, hk, hle, hlt⟩
  · have he : l.elems = [] := by
      have := hwf; rw [h0] at this
      exact (List.eq_nil_of_length_eq_zero this.symm)
    have hadd : Add v l = { capacity := 1, count := 1, elems := l.elems ++ [v], null := false } := by
      unfold Add
      rw [if_pos (by rw [h0, hc0]), if_pos hc0]
      simp [h0]
    rw [hadd]
    refine ⟨⟨by simp [he], Or.inr ⟨le_refl 1, 0, by simp, by simp, by simp⟩⟩, rfl⟩
  · have hkpos : (0 : Nat) < 2 ^ k := Nat.pos_pow_of_pos k (by omega)
    by_cases hfull : l.count = l.capacity
    · have hcne : l.capacity ≠ 0 := by omega
      have hgrow : Reallocate (l.capacity * 2) l =
          { capacity := l.capacity * 2, count := l.count,
            elems := l.elems.take l.count, null := false } := by
        unfold Reallocate
        rw [if_neg hcne, if_pos (by omega)]
      have htake : l.elems.take l.count = l.elems := by
        rw [hwf]; exact List.take_length l.elems
      have hadd : Add v l = { capacity := l.capacity * 2, count := l.count + 1, elems := l.elems ++ [v], null := false } := by
        unfold Add
        rw [if_pos hfull, if_neg hcne, hgrow]
        simp [htake]
      rw [hadd]
      have hc : l.count = 2 ^ k := by rw [hfull, hk]
      refine ⟨⟨?_, Or.inr ⟨?_, k + 1, ?_, ?_, ?_⟩⟩, rfl⟩
      · show l.count + 1 = (l.elems ++ [v]).length
        simp [hwf]
      · show 1 ≤ l.count + 1
        omega
      · show l.capacity * 2 = 2 ^ (k + 1)
        rw [hk, Nat.pow_succ]
      · show l.count + 1 ≤ 2 ^ (k + 1)
        rw [Nat.pow_succ]
        omega
      · show 2 ^ (k + 1) < 2 * (l.count + 1)
        rw [Nat.pow_succ]
        omega
    · have hadd : Add v l = { l with count := l.count + 1, elems := l.elems ++ [v] } := by
        unfold Add
        rw [if_neg hfull]
      rw [hadd]
      have hstrict : l.count < 2 ^ k := by
        rw [← hk]; omega
      refine ⟨⟨?_, Or.inr ⟨?_, k, hk, ?_, ?_⟩⟩, rfl⟩
      · show l.count + 1 = (l.elems ++ [v]).length
        simp [hwf]
      · show 1 ≤ l.count + 1
        omega
      · show l.count + 1 ≤ 2 ^ k
        omega
      · show 2 ^ k < 2 * (l.count + 1)
        omega

theorem growInv_addAll (vs : List T) :
    ∀ l : CList T, GrowInv l →
      GrowInv (AddAll vs l) ∧ (AddAll vs l).elems = l.elems ++ vs := by
  induction vs with
  | nil => intro l h; exact ⟨h, by simp [AddAll]⟩
  | cons v rest ih =>
    intro l h
    have hstep := growInv_add l v h
    have hrec := ih (Add v l) hstep.1
    have hfold : AddAll (v :: rest) l = AddAll rest (Add v l) := rfl
    rw [hfold]
    exact ⟨hrec.1, by rw [hrec.2, hstep.2, List.append_assoc]; rfl⟩

/-- C7: appending `v0..v(N-1)` to the empty list yields exactly that element
sequence with `Count() = N`; the capacity is `0` for `N = 0` and otherwise the
least power of two `>= N` — a `2 ^ k` with `N ≤ 2 ^ k < 2 N` (each growth step
allocates 1 slot from capacity 0 and doubles otherwise, per lines 198-204). -/
theorem addAll_correct (vs : List Int) :
    (AddAll vs (empty : CList Int)).elems = vs ∧
    (AddAll vs (empty : CList Int)).count = vs.length ∧
    (vs = [] → (AddAll vs (empty : CList Int)).capacity = 0) ∧
    (vs ≠ [] → ∃ k, (AddAll vs (empty : CList Int)).capacity = 2 ^ k ∧
      vs.length ≤ 2 ^ k ∧ 2 ^ k < 2 * vs.length) := by
  have hinv : GrowInv (empty : CList Int) := ⟨rfl, Or.inl ⟨rfl, rfl⟩⟩
  have h := growInv_addAll vs (empty : CList Int) hinv
  have helems : (AddAll vs (empty : CList Int)).elems = vs := by
    rw [h.2]; rfl
  have hcount : (AddAll vs (empty : CList Int)).count = vs.length := by
    rw [h.1.1, helems]
  refine ⟨helems, hcount, ?_, ?_⟩
  · intro hnil
    rcases h.1.2 with ⟨_, hc0⟩ | ⟨h1, _⟩
    · exact hc0
    · rw [hcount, hnil] at h1; simp at h1
  · intro hne
    rcases h.1.2 with ⟨h0, _⟩ | ⟨h1, k, hk, hle, hlt⟩
    · rw [hcount] at h0
      exact absurd (List.eq_nil_of_length_eq_zero h0) hne
    · exact ⟨k, hk, by rw [← hcount]; exact hle, by rw [← hcount]; exact hlt⟩

/-- C7, witness: five appends of `5, 3, 1, 4, 2` yield that sequence with
count 5 and capacity the least power of two at least 5 (i.e. 8). -/
theorem addAll_correct_w :
    (AddAll [5, 3, 1, 4, 2] (empty : CList Int)).elems = [5, 3, 1, 4, 2] ∧
    (AddAll [5, 3, 1, 4, 2] (empty : CList Int)).count = 5 ∧
    ∃ k, (AddAll [5, 3, 1, 4, 2] (empty : CList Int)).capacity = 2 ^ k ∧
      5 ≤ 2 ^ k ∧ 2 ^ k < 10 := by
  have h := addAll_correct [5, 3, 1, 4, 2]
  refine ⟨h.1, by simpa using h.2.1, ?_⟩
  have h4 := h.2.2.2 (by decide)
  simpa using h4

/-! ### Claim C9 — `operator[]` is unchecked -/

theorem getElem?_isSome_iff (xs : List T) (i : Nat) :
    (xs[i]?).isSome ↔ i < xs.length := by
  induction xs generalizing i with
  | nil => simp
  | cons x t ih =>
    cases i with
    | zero => simp
    | succ n => simpa [Nat.succ_lt_succ_iff] using ih n

theorem getElem?_none_of_len_le (xs : List T) (i : Nat) (h : xs.length ≤ i) :
    xs[i]? = none := by
  induction xs generalizing i with
  | nil => simp
  | cons x t ih =>
    cases i with
    | zero => simp at h
    | succ n => simpa using ih n (by simpa using h)

/-- C9: `operator[]` performs no bounds check — it returns `_Elems[index]`
for every `index`, raising no error.  In the guarded embedding the access
yields a defined value exactly for `index < Count()`: every `index >= Count()`
reaches the out-of-bounds (`none`) branch through the public interface, so the
caller alone must enforce `index < Count()`. -/
theorem opIndex_unchecked (l : CList Int) (index : Nat)
    (hwf : l.count = l.elems.length) :
    ((opIndex l index).isSome ↔ index < l.count) ∧
    (l.count ≤ index → opIndex l index = none) := by
  constructor
  · rw [hwf]
    unfold opIndex
    exact getElem?_isSome_iff l.elems index
  · intro h
    unfold opIndex
    exact getElem?_none_of_len_le l.elems index (by omega)

/-- C9, witness: indexing the empty list at 0 — an index `>= Count()` — hits
the out-of-bounds branch and yields no value. -/
theorem opIndex_unchecked_w :
    opIndex (empty : CList Int) 0 = none := by
  exact (opIndex_unchecked (empty : CList Int) 0 rfl).2 (by decide)

/-! ### Claim C10 — the copy constructor shrinks to fit -/

/-- C10: `List(const List& a)` produces a list with the same count, the same
element values in order and the same nullness of the storage handle, whose
capacity equals `a.Count()` — not `a.Capacity()` (line 157 initializes
`_Capacity(other._Count)` and allocates `other._Count` slots). -/
theorem copyCtor_shrinks_to_fit (l : CList Int) (hwf : l.count = l.elems.length) :
    (copyCtor l).count = l.count ∧ (copyCtor l).capacity = l.count ∧
    (copyCtor l).elems = l.elems ∧ (copyCtor l).null = l.null := by
  refine ⟨rfl, rfl, ?_, rfl⟩
  show l.elems.take l.count = l.elems
  rw [hwf]
  exact List.take_length l.elems

/-- C10, witness: copying the three-element list `[1, 2, 3]`, whose capacity
is 4, yields an equal-element list of capacity 3 = count, not 4. -/
theorem copyCtor_shrinks_to_fit_w :
    (copyCtor (AddAll [1, 2, 3] (empty : CList Int))).capacity = 3 ∧
    (copyCtor (AddAll [1, 2, 3] (empty : CList Int))).elems = [1, 2, 3] ∧
    (AddAll [1, 2, 3] (empty : CList Int)).capacity = 4 := by
  have h := copyCtor_shrinks_to_fit (AddAll [1, 2, 3] (empty : CList Int)) (by decide)
  refine ⟨?_, ?_, by decide⟩
  · rw [h.2.1]; decide
  · rw [h.2.2.1]; decide

/-! ### Claim C8 — `Reverse` -/

theorem clist_ext (m l : CList T) (hcap : m.capacity = l.capacity)
    (hcnt : m.count = l.count) (he : m.elems = l.elems) (hn : m.null = l.null) :
    m = l := by
  obtain ⟨c1, n1, e1, b1⟩ := m
  obtain ⟨c2, n2, e2, b2⟩ := l
  simp only at hcap hcnt he hn
  subst hcap; subst hcnt; subst he; subst hn
  rfl

/-- One body-swap of the `Reverse` loop in sandwich form: swapping the first
and last positions of the middle section `x :: (ms ++ y :: b)`... i.e. in
`a ++ x :: (ms ++ y :: b)` the slots `a.length` and `a.length + ms.length + 1`
hold `x` and `y`, and swapping them exchanges the two. -/
theorem swapPos_sandwich (a ms b : List T) (x y : T) :
    swapPos (a ++ x :: (ms ++ y :: b)) a.length (a.length + (ms.length + 1))
      = a ++ y :: (ms ++ x :: b) := by
  have e1 : ∀ u : T, a ++ u :: (ms ++ y :: b) = (a ++ u :: ms) ++ (y :: b) := by
    intro u; simp
  have hlen : ∀ u : T, (a ++ u :: ms).length = a.length + (ms.length + 1) := by
    intro u; simp
  have h1 : (a ++ x :: (ms ++ y :: b))[a.length]? = some x := by
    simpa using getElem?_len_append a (x :: (ms ++ y :: b)) 0
  have h2 : (a ++ x :: (ms ++ y :: b))[a.length + (ms.length + 1)]? = some y := by
    rw [e1 x, ← hlen x]
    simpa using getElem?_len_append (a ++ x :: ms) (y :: b) 0
  unfold swapPos
  rw [h1, h2]
  show ((a ++ x :: (ms ++ y :: b)).set a.length y).set (a.length + (ms.length + 1)) x
      = a ++ y :: (ms ++ x :: b)
  have hs1 : (a ++ x :: (ms ++ y :: b)).set a.length y = a ++ y :: (ms ++ y :: b) := by
    simp [set_len_append a (x :: (ms ++ y :: b)) 0 y]
  rw [hs1]
  have hs2 : (a ++ y :: (ms ++ y :: b)).set (a.length + (ms.length + 1)) x
      = a ++ y :: (ms ++ x :: b) := by
    rw [e1 y, ← hlen y]
    simp [set_len_append (a ++ y :: ms) (y :: b) 0 x]
  rw [hs2]

/-- The `Reverse` loop, started at position `i = a.length` on a list
`a ++ m ++ b` whose outer sections `a` and `b` have equal length `i`, reverses
exactly the middle section `m`. -/
theorem revLoopFrom_sandwich :
    ∀ (L : Nat) (m a b : List T), m.length = L → a.length = b.length →
      revLoopFrom (a.length + L + b.length) a.length (a ++ (m ++ b))
        = a ++ (m.reverse ++ b) := by
  intro L
  induction L using Nat.strong_induction_on with
  | _ L ih =>
    intro m a b hL hab
    rcases m with _ | ⟨x, rest⟩
    · simp only [List.length_nil] at hL
      subst hL
      rw [revLoopFrom]
      rw [dif_neg (by omega)]
      simp
    · rcases List.eq_nil_or_concat rest with hr | ⟨ms, y, hr⟩
      · subst hr
        simp only [List.length_cons, List.length_nil] at hL
        subst hL
        rw [revLoopFrom]
        rw [dif_neg (by omega)]
        simp
      · subst hr
        rw [List.concat_eq_append] at hL ⊢
        simp only [List.length_cons, List.length_append, List.length_nil] at hL
        subst hL
        rw [revLoopFrom]
        rw [dif_pos (by omega)]
        have hidx : a.length + (ms.length + 1 + 1) + b.length - a.length - 1
            = a.length + (ms.length + 1) := by omega
        rw [hidx]
        have hxs : a ++ ((x :: (ms ++ [y])) ++ b) = a ++ x :: (ms ++ y :: b) := by
          simp
        rw [hxs, swapPos_sandwich a ms b x y]
        have hrec := ih ms.length (by omega) ms (a ++ [y]) (x :: b) rfl
          (by simp [hab])
        simp only [List.length_append, List.length_cons, List.length_nil,
          List.append_assoc, List.cons_append, List.nil_append,
          List.reverse_cons, List.reverse_append, List.reverse_nil,
          List.singleton_append] at hrec ⊢
        have harith : a.length + (ms.length + 1 + 1) + b.length
            = a.length + 1 + (ms.length + (b.length + 1)) := by omega
        rw [harith]
        convert hrec using 2
        omega

/-- C8: `Reverse()` maps the element sequence to its reversal — the loop of
pairwise swaps of slots `i` and `count - i - 1` for `i < count / 2` produces
`List.reverse` — while `Count()` and `Capacity()` are untouched, and applying
`Reverse` twice restores the original list exactly. -/
theorem reverse_correct (l : CList Int) (hwf : l.count = l.elems.length) :
    (Reverse l).elems = l.elems.reverse ∧ (Reverse l).count = l.count ∧
    (Reverse l).capacity = l.capacity ∧ Reverse (Reverse l) = l := by
  have key : ∀ xs : List Int, revLoopFrom xs.length 0 xs = xs.reverse := by
    intro xs
    have h := revLoopFrom_sandwich xs.length xs [] [] rfl rfl
    simpa using h
  have h1 : (Reverse l).elems = l.elems.reverse := by
    show revLoopFrom l.count 0 l.elems = l.elems.reverse
    rw [hwf]
    exact key l.elems
  refine ⟨h1, rfl, rfl, ?_⟩
  have h2 : (Reverse (Reverse l)).elems = l.elems := by
    show revLoopFrom (Reverse l).count 0 (Reverse l).elems = l.elems
    have hwf2 : (Reverse l).count = (Reverse l).elems.length := by
      rw [h1]
      show l.count = l.elems.reverse.length
      simpa using hwf
    rw [hwf2, key, h1, List.reverse_reverse]
  exact clist_ext (Reverse (Reverse l)) l rfl rfl h2 rfl

/-- C8, witness: `Reverse` on `[1, 2, 3, 4, 5]` yields `[5, 4, 3, 2, 1]`, and
reversing twice gives back the original list. -/
theorem reverse_correct_w :
    (Reverse (AddAll [1, 2, 3, 4, 5] (empty : CList Int))).elems = [5, 4, 3, 2, 1] ∧
    Reverse (Reverse (AddAll [1, 2, 3, 4, 5] (empty : CList Int))) =
      AddAll [1, 2, 3, 4, 5] (empty : CList Int) := by
  have h := reverse_correct (AddAll [1, 2, 3, 4, 5] (empty : CList Int)) (by decide)
  exact ⟨by rw [h.1]; decide, h.2.2.2⟩

end CQue
